import Mathlib

/-!
Verification of the spreadsheet-archive image-extraction routine
(`extract_images_using_zipfile` in `extract_excel_images.py`).

The archive is modelled as a list of entries; each entry carries its path
inside the archive, its raw bytes, and environment oracles saying whether
reading the entry (`zip_ref.read`), writing the corresponding output file
(`open(..., 'wb')`), and decoding the bytes as an image (PIL `Image.open`
plus `verify`) succeed.  The output directory is an association list from
file name to byte content; `open(..., 'wb')` semantics (create or
truncate-and-overwrite) are modelled by `writeFile`.  String predicates on
entry paths are implemented by structural recursion on the character data
so that all concrete runs reduce by evaluation.
-/

namespace ExtractImages

/-- Raw byte content of an archive entry or an output file. -/
abbrev Bytes := List Nat

/-- `listIsPre p l` is true when the character list `p` is an initial
segment of `l` (Python `str.startswith`, over the character data). -/
def listIsPre : List Char → List Char → Bool
  | [], _ => true
  | _ :: _, [] => false
  | p :: ps, c :: cs => p == c && listIsPre ps cs

/-- Python `s.startswith(pat)`. -/
def strStartsWith (s pat : String) : Bool := listIsPre pat.data s.data

/-- `listHasSub p l` is true when `p` occurs as a contiguous sublist of `l`
(Python `pat in s`, over the character data). -/
def listHasSub (pat : List Char) : List Char → Bool
  | [] => listIsPre pat []
  | c :: cs => listIsPre pat (c :: cs) || listHasSub pat cs

/-- Python `pat in s` (substring containment). -/
def strHasSub (s pat : String) : Bool := listHasSub pat.data s.data

/-- Python `s.endswith(pat)`. -/
def strEndsWith (s pat : String) : Bool := listIsPre pat.data.reverse s.data.reverse

/-- Python `s.lower()` (ASCII case folding, as `Char.toLower`). -/
def strToLower (s : String) : String := ⟨s.data.map Char.toLower⟩

/-- Python `os.path.basename`: the part of the path after the last slash. -/
def basename (p : String) : String :=
  ⟨(p.data.reverse.takeWhile (fun c => c != '/')).reverse⟩

/-- Decimal digits of `n` (most significant first), with enough fuel. -/
def natToDecAux : Nat → Nat → List Char
  | 0, _ => []
  | fuel + 1, n => if n = 0 then [] else natToDecAux fuel (n / 10) ++ [Char.ofNat (48 + n % 10)]

/-- Decimal rendering of a natural number, as Python `f"{n}"`. -/
def natToDec (n : Nat) : String := if n = 0 then "0" else ⟨natToDecAux n n⟩

/-- One archive entry: its path, its raw bytes, and environment oracles for
the three fallible external operations (`zip_ref.read`, `open(...,'wb')`,
PIL decode/verify).  `decodesTo = some fmt` means PIL accepts the bytes and
reports format `fmt` (`none` inside meaning `img.format` is `None`). -/
structure Entry where
  path : String
  data : Bytes
  readOk : Bool
  writeOk : Bool
  decodesTo : Option (Option String)
deriving DecidableEq, Repr

/-- One successful write: the sequence number used in the file name, the
output file name, and the bytes written. -/
structure Output where
  seq : Nat
  name : String
  content : Bytes
deriving DecidableEq, Repr

/-- Mutable state of a run: the running `image_count`, the output
directory's contents, and the log of successful writes. -/
structure ScanState where
  count : Nat
  dir : List (String × Bytes)
  writes : List Output
deriving DecidableEq, Repr

/-- `open(path, 'wb')` followed by `write`: replace the contents of an
existing file of that name, or create the file. -/
def writeFile : List (String × Bytes) → String → Bytes → List (String × Bytes)
  | [], n, d => [(n, d)]
  | (m, c) :: rest, n, d =>
    if m = n then (n, d) :: rest else (m, c) :: writeFile rest n d

/-- Tier 1 test (line 78 of the source):
`file.startswith('xl/media/') or '/ppt/media/' in file or '/word/media/' in file`. -/
def tier1Qual (p : String) : Bool :=
  strStartsWith p "xl/media/" || strHasSub p "/ppt/media/" || strHasSub p "/word/media/"

/-- The fixed image-extension allow-list of Tier 2 (line 101). -/
def imageExts : List String :=
  [".png", ".jpg", ".jpeg", ".gif", ".bmp", ".tiff", ".emf", ".wmf"]

/-- Tier 2 test (line 101): `any(file.endswith(ext) for ext in [...])`. -/
def tier2Qual (p : String) : Bool := imageExts.any (fun ext => strEndsWith p ext)

/-- Tier 3 scan test (line 122):
`'drawings' in file.lower() or 'image' in file.lower() or 'media' in file.lower()`. -/
def tier3Scan (p : String) : Bool :=
  strHasSub (strToLower p) "drawings" || strHasSub (strToLower p) "image" ||
    strHasSub (strToLower p) "media"

/-- Body of the Tier 1 / Tier 2 loop for one qualifying entry
(lines 79-93 and 102-116): increment `image_count`, then read and write to
`f"{image_count}_{basename}"`; a read or write failure is caught and the
entry is skipped (with the counter already incremented). -/
def saveEntry (st : ScanState) (e : Entry) : ScanState :=
  if e.readOk then
    if e.writeOk then
      { count := st.count + 1,
        dir := writeFile st.dir (natToDec (st.count + 1) ++ "_" ++ basename e.path) e.data,
        writes := st.writes ++
          [⟨st.count + 1, natToDec (st.count + 1) ++ "_" ++ basename e.path, e.data⟩] }
    else { st with count := st.count + 1 }
  else { st with count := st.count + 1 }

/-- Tier 1 loop (lines 76-93). -/
def tier1Pass (entries : List Entry) (st : ScanState) : ScanState :=
  entries.foldl (fun st e => if tier1Qual e.path then saveEntry st e else st) st

/-- Tier 2 loop (lines 100-116). -/
def tier2Pass (entries : List Entry) (st : ScanState) : ScanState :=
  entries.foldl (fun st e => if tier2Qual e.path then saveEntry st e else st) st

/-- `img.format.lower() if img.format else 'png'` (line 130): `None` and
the empty string are falsy in Python. -/
def fmtExt : Option String → String
  | none => "png"
  | some f => if f = "" then "png" else strToLower f

/-- Body of the Tier 3 loop for one scanned entry (lines 123-138): read,
decode, and only then increment the counter and write; any failure is
silently skipped (counter already incremented if the write fails). -/
def saveDetected (st : ScanState) (e : Entry) : ScanState :=
  if e.readOk then
    match e.decodesTo with
    | some fmt =>
      if e.writeOk then
        { count := st.count + 1,
          dir := writeFile st.dir
            (natToDec (st.count + 1) ++ "_detected_image." ++ fmtExt fmt) e.data,
          writes := st.writes ++
            [⟨st.count + 1, natToDec (st.count + 1) ++ "_detected_image." ++ fmtExt fmt,
              e.data⟩] }
      else { st with count := st.count + 1 }
    | none => st
  else st

/-- Tier 3 loop (lines 121-138). -/
def tier3Pass (entries : List Entry) (st : ScanState) : ScanState :=
  entries.foldl (fun st e => if tier3Scan e.path then saveDetected st e else st) st

/-- The source file handed to the routine: missing on disk, present but not
a valid zip archive, or a readable archive with its listed entries. -/
inductive Source
  | missing
  | notZip
  | archive (entries : List Entry)
deriving DecidableEq, Repr

/-- Observable outcome of one invocation: the returned count, the final
output-directory contents, the log of successful writes, and whether the
output directory was created/confirmed. -/
structure RunResult where
  count : Nat
  dir : List (String × Bytes)
  writes : List Output
  dirCreated : Bool
deriving DecidableEq, Repr

/-- `extract_images_using_zipfile(excel_path, output_dir)` (lines 26-167).
A missing source returns 0 before the output directory is touched; a
non-zip source returns 0 after the directory was created (`BadZipFile` is
raised only when the archive is opened, after `os.makedirs`).  Otherwise
Tier 1 runs over all entries; Tiers 2 and 3 run only when Tier 1 left the
counter at zero, Tier 3 additionally requiring the PIL capability. -/
def extract_images_using_zipfile (src : Source) (hasPIL : Bool)
    (dir0 : List (String × Bytes)) : RunResult :=
  match src with
  | .missing => { count := 0, dir := dir0, writes := [], dirCreated := false }
  | .notZip => { count := 0, dir := dir0, writes := [], dirCreated := true }
  | .archive entries =>
    let st0 : ScanState := { count := 0, dir := dir0, writes := [] }
    let st1 := tier1Pass entries st0
    let stF :=
      if st1.count = 0 then
        let st2 := tier2Pass entries st1
        if hasPIL then tier3Pass entries st2 else st2
      else st1
    { count := stF.count, dir := stF.dir, writes := stF.writes, dirCreated := true }

/-- An entry outside any media folder but with an image extension and
valid image bytes: qualifies for Tiers 2 and 3, not for Tier 1. -/
def looseImageEntry : Entry := ⟨"image1.png", [1, 2, 3], true, true, some (some "PNG")⟩

example : tier1Qual "xl/media/image1.png" = true := by decide
example : tier1Qual "ppt/media/image1.png" = false := by decide
example : tier1Qual "a/ppt/media/x.png" = true := by decide
example : tier2Qual "a.PNG" = false := by decide
example : tier2Qual "foo/a.jpeg" = true := by decide
example : basename "xl/media/image1.png" = "image1.png" := by decide
example : natToDec 12 = "12" := by decide
example :
    extract_images_using_zipfile (.archive [looseImageEntry]) true [] =
      ⟨2, [("1_image1.png", [1, 2, 3]), ("2_detected_image.png", [1, 2, 3])],
        [⟨1, "1_image1.png", [1, 2, 3]⟩, ⟨2, "2_detected_image.png", [1, 2, 3]⟩], true⟩ := by
  decide

/-- Following the words of the spec for Tier 1 (used to compare with the
source's `tier1Qual`): the path begins with one of the three canonical
media-folder paths of the format family. -/
def specTier1Qual (p : String) : Bool :=
  strStartsWith p "xl/media/" || strStartsWith p "ppt/media/" || strStartsWith p "word/media/"

/-- Following the words of the spec for Tier 2 (used to compare with the
source's `tier2Qual`): case-insensitive suffix match against the
image-extension allow-list. -/
def specTier2Qual (p : String) : Bool :=
  imageExts.any (fun ext => strEndsWith (strToLower p) ext)

theorem saveEntry_count (st : ScanState) (e : Entry) :
    (saveEntry st e).count = st.count + 1 := by
  cases hr : e.readOk <;> cases hw : e.writeOk <;> simp [saveEntry, hr, hw]

theorem tier1Pass_nil (st : ScanState) : tier1Pass [] st = st := rfl

theorem tier1Pass_cons (e : Entry) (es : List Entry) (st : ScanState) :
    tier1Pass (e :: es) st =
      tier1Pass es (if tier1Qual e.path then saveEntry st e else st) := rfl

theorem tier2Pass_nil (st : ScanState) : tier2Pass [] st = st := rfl

theorem tier2Pass_cons (e : Entry) (es : List Entry) (st : ScanState) :
    tier2Pass (e :: es) st =
      tier2Pass es (if tier2Qual e.path then saveEntry st e else st) := rfl

theorem tier3Pass_nil (st : ScanState) : tier3Pass [] st = st := rfl

theorem tier3Pass_cons (e : Entry) (es : List Entry) (st : ScanState) :
    tier3Pass (e :: es) st =
      tier3Pass es (if tier3Scan e.path then saveDetected st e else st) := rfl

theorem tier1Pass_count (es : List Entry) (st : ScanState) :
    (tier1Pass es st).count = st.count + es.countP (fun e => tier1Qual e.path) := by
  induction es generalizing st with
  | nil => simp [tier1Pass_nil]
  | cons e es ih =>
    rw [tier1Pass_cons, ih]
    by_cases h : tier1Qual e.path
    · simp [h, saveEntry_count, List.countP_cons]
      omega
    · simp [h, List.countP_cons]

theorem tier2Pass_count (es : List Entry) (st : ScanState) :
    (tier2Pass es st).count = st.count + es.countP (fun e => tier2Qual e.path) := by
  induction es generalizing st with
  | nil => simp [tier2Pass_nil]
  | cons e es ih =>
    rw [tier2Pass_cons, ih]
    by_cases h : tier2Qual e.path
    · simp [h, saveEntry_count, List.countP_cons]
      omega
    · simp [h, List.countP_cons]

theorem tier1Pass_skip (es : List Entry) (st : ScanState)
    (h : ∀ e ∈ es, tier1Qual e.path = false) : tier1Pass es st = st := by
  induction es generalizing st with
  | nil => rfl
  | cons e es ih =>
    have he := h e (List.mem_cons_self e es)
    rw [tier1Pass_cons]
    simp only [he, Bool.false_eq_true, if_false]
    exact ih st fun x hx => h x (List.mem_cons_of_mem e hx)

/-- Claim C4 (counterexample): the presentation-variant path
`ppt/media/image1.png` begins with a canonical media-folder path, yet
Tier 1 does not process it — the source tests substring containment of
`/ppt/media/` (with a leading slash), not a path-root test. -/
theorem c4_counterexample :
    tier1Qual "ppt/media/image1.png" = false ∧
      specTier1Qual "ppt/media/image1.png" = true ∧
      (tier1Pass [⟨"ppt/media/image1.png", [5], true, true, none⟩] ⟨0, [], []⟩).writes = [] ∧
      (tier1Pass [⟨"ppt/media/image1.png", [5], true, true, none⟩] ⟨0, [], []⟩).count = 0 := by
  decide

/-- Claim C4 (amended): Tier 1 processes exactly the entries whose path
starts with `xl/media/`, or contains `/ppt/media/` or `/word/media/` as a
substring; each processed entry advances the running counter by one. -/
theorem c4_tier1_test (es : List Entry) (st : ScanState) :
    (tier1Pass es st).count = st.count + es.countP (fun e =>
      strStartsWith e.path "xl/media/" || strHasSub e.path "/ppt/media/" ||
        strHasSub e.path "/word/media/") :=
  tier1Pass_count es st

/-- Claim C5 (counterexample): `a.PNG` matches the allow-list
case-insensitively, yet Tier 2 does not pick it up — the source's
`endswith` test is case-sensitive against the lowercase allow-list, so the
run extracts nothing from an archive containing only this entry. -/
theorem c5_counterexample :
    tier2Qual "a.PNG" = false ∧ specTier2Qual "a.PNG" = true ∧
      (extract_images_using_zipfile (.archive [⟨"a.PNG", [9], true, true, none⟩])
          false []).count = 0 := by
  decide

/-- Claim C5 (amended): Tier 2 processes exactly the entries whose path
ends, case-sensitively, with one of the fixed lowercase allow-list
extensions; each processed entry advances the running counter by one. -/
theorem c5_tier2_test (es : List Entry) (st : ScanState) :
    (tier2Pass es st).count = st.count + es.countP (fun e =>
      imageExts.any (fun ext => strEndsWith e.path ext)) :=
  tier2Pass_count es st

/-- Claim C8: a missing source file yields count 0 with the output
directory untouched and not created; a source that is not a valid zip
archive yields count 0 with no writes.  All fatal conditions are returned
as a zero count, never an uncaught exception (the embedded routine is a
total function). -/
theorem c8_fatal_zero (hasPIL : Bool) (dir0 : List (String × Bytes)) :
    extract_images_using_zipfile .missing hasPIL dir0 =
        { count := 0, dir := dir0, writes := [], dirCreated := false } ∧
      (extract_images_using_zipfile .notZip hasPIL dir0).count = 0 ∧
      (extract_images_using_zipfile .notZip hasPIL dir0).writes = [] ∧
      (extract_images_using_zipfile .notZip hasPIL dir0).dir = dir0 :=
  ⟨rfl, rfl, rfl, rfl⟩

/-- Claim C10: output files are opened in overwrite mode, so a file
already present in the output directory under a colliding name has its
contents silently replaced by the newly extracted bytes; the run reports
success (count 1) with no indication of the replacement. -/
theorem c10_overwrite (old c : Bytes) (rest : List (String × Bytes)) :
    (extract_images_using_zipfile
        (.archive [⟨"xl/media/image1.png", c, true, true, none⟩]) false
        (("1_image1.png", old) :: rest)).dir = ("1_image1.png", c) :: rest ∧
      (extract_images_using_zipfile
        (.archive [⟨"xl/media/image1.png", c, true, true, none⟩]) false
        (("1_image1.png", old) :: rest)).count = 1 :=
  ⟨rfl, rfl⟩

/-- Claim C1 (counterexample): an archive whose only entry is
`image1.png` with PIL-decodable bytes.  Tier 1 extracts zero images,
Tier 2 extracts one, and yet Tier 3 (capability present) still processes
the entry and writes a second copy under a `detected_image` name — the
source gates Tier 3 only on Tier 1's result being zero. -/
theorem c1_counterexample :
    (tier1Pass [looseImageEntry] ⟨0, [], []⟩).count = 0 ∧
      (tier2Pass [looseImageEntry] (tier1Pass [looseImageEntry] ⟨0, [], []⟩)).count = 1 ∧
      (extract_images_using_zipfile (.archive [looseImageEntry]) true []).writes =
        [⟨1, "1_image1.png", [1, 2, 3]⟩, ⟨2, "2_detected_image.png", [1, 2, 3]⟩] := by
  decide

/-- Claim C1 (amended): Tier 3 is gated only on Tier 1's result and the
decoding capability: whenever Tier 1 extracted zero images and the
capability is present, the run continues into Tier 2 and then always into
Tier 3, regardless of how many images Tier 2 extracted. -/
theorem c1_tier3_gating (es : List Entry) (dir0 : List (String × Bytes))
    (h : (tier1Pass es ⟨0, dir0, []⟩).count = 0) :
    extract_images_using_zipfile (.archive es) true dir0 =
      { count := (tier3Pass es (tier2Pass es (tier1Pass es ⟨0, dir0, []⟩))).count,
        dir := (tier3Pass es (tier2Pass es (tier1Pass es ⟨0, dir0, []⟩))).dir,
        writes := (tier3Pass es (tier2Pass es (tier1Pass es ⟨0, dir0, []⟩))).writes,
        dirCreated := true } := by
  simp only [extract_images_using_zipfile]
  rw [if_pos h]
  rfl

/-- Witness for `c1_tier3_gating` at the concrete one-entry archive of
`c1_counterexample`. -/
theorem c1_witness :
    (tier1Pass [looseImageEntry] ⟨0, [], []⟩).count = 0 ∧
      extract_images_using_zipfile (.archive [looseImageEntry]) true [] =
        { count := (tier3Pass [looseImageEntry]
              (tier2Pass [looseImageEntry] (tier1Pass [looseImageEntry] ⟨0, [], []⟩))).count,
          dir := (tier3Pass [looseImageEntry]
              (tier2Pass [looseImageEntry] (tier1Pass [looseImageEntry] ⟨0, [], []⟩))).dir,
          writes := (tier3Pass [looseImageEntry]
              (tier2Pass [looseImageEntry] (tier1Pass [looseImageEntry] ⟨0, [], []⟩))).writes,
          dirCreated := true } :=
  ⟨by decide, c1_tier3_gating [looseImageEntry] [] (by decide)⟩

/-- Claim C2 (counterexample): the archive of `c1_counterexample` has zero
Tier-1 entries and exactly one allow-list entry, yet the returned count is
2 when the decoding capability is present, because Tier 3 also runs and
writes a duplicate. -/
theorem c2_counterexample :
    [looseImageEntry].countP (fun e => tier1Qual e.path) = 0 ∧
      [looseImageEntry].countP (fun e => tier2Qual e.path) = 1 ∧
      (extract_images_using_zipfile (.archive [looseImageEntry]) true []).count = 2 := by
  decide

/-- Claim C2 (amended): for an archive with zero Tier-1 entries and
exactly `m` allow-list entries, when the decoding capability is absent the
routine returns exactly `m` and every written file was produced by the
Tier 2 pass; with the capability present Tier 3 also runs and may write
further files. -/
theorem c2_tier2_count (es : List Entry) (dir0 : List (String × Bytes))
    (h : es.countP (fun e => tier1Qual e.path) = 0) :
    (extract_images_using_zipfile (.archive es) false dir0).count =
        es.countP (fun e => tier2Qual e.path) ∧
      (extract_images_using_zipfile (.archive es) false dir0).writes =
        (tier2Pass es ⟨0, dir0, []⟩).writes := by
  have hall : ∀ e ∈ es, tier1Qual e.path = false := by
    intro e he
    simpa using List.countP_eq_zero.mp h e he
  have hskip : tier1Pass es ⟨0, dir0, []⟩ = ⟨0, dir0, []⟩ := tier1Pass_skip es _ hall
  refine ⟨?_, ?_⟩ <;> simp [extract_images_using_zipfile, hskip, tier2Pass_count]

/-- Witness for `c2_tier2_count` at the concrete one-entry archive. -/
theorem c2_witness :
    [looseImageEntry].countP (fun e => tier1Qual e.path) = 0 ∧
      ((extract_images_using_zipfile (.archive [looseImageEntry]) false []).count =
          [looseImageEntry].countP (fun e => tier2Qual e.path) ∧
        (extract_images_using_zipfile (.archive [looseImageEntry]) false []).writes =
          (tier2Pass [looseImageEntry] ⟨0, [], []⟩).writes) :=
  ⟨by decide, c2_tier2_count [looseImageEntry] [] (by decide)⟩

/-- A canonical-media entry whose read (`zip_ref.read`) fails. -/
def unreadableMediaEntry : Entry := ⟨"xl/media/image1.png", [1], false, true, none⟩

/-- Claim C3: the source increments `image_count` before attempting the
read, so a failed entry is still counted: for the one-entry archive whose
read fails, the routine returns 1 while zero files were written — the
returned count exceeds the number of files successfully written. -/
theorem c3_overcount :
    (extract_images_using_zipfile (.archive [unreadableMediaEntry]) false []).count = 1 ∧
      (extract_images_using_zipfile (.archive [unreadableMediaEntry]) false []).writes = [] ∧
      (extract_images_using_zipfile (.archive [unreadableMediaEntry]) false []).dir = [] := by
  decide

/-- A canonical-media entry whose byte content is empty. -/
def emptyMediaEntry : Entry := ⟨"xl/media/empty.png", [], true, true, none⟩

/-- Claim C6 (counterexample): an empty archive entry in the canonical
media folder is written out verbatim as an empty file — no tier checks
that the bytes are non-empty. -/
theorem c6_counterexample :
    (extract_images_using_zipfile (.archive [emptyMediaEntry]) false []).writes =
      [⟨1, "1_empty.png", []⟩] := by
  decide

theorem saveEntry_writes_sub (st : ScanState) (e : Entry) :
    ∀ w ∈ (saveEntry st e).writes, w ∈ st.writes ∨ w.content = e.data := by
  intro w hw
  unfold saveEntry at hw
  split at hw
  · split at hw
    · rcases List.mem_append.mp hw with h | h
      · exact Or.inl h
      · rw [List.mem_singleton] at h
        subst h
        exact Or.inr rfl
    · exact Or.inl hw
  · exact Or.inl hw

theorem saveDetected_writes_sub (st : ScanState) (e : Entry) :
    ∀ w ∈ (saveDetected st e).writes, w ∈ st.writes ∨ w.content = e.data := by
  intro w hw
  unfold saveDetected at hw
  split at hw
  · split at hw
    · split at hw
      · rcases List.mem_append.mp hw with h | h
        · exact Or.inl h
        · rw [List.mem_singleton] at h
          subst h
          exact Or.inr rfl
      · exact Or.inl hw
    · exact Or.inl hw
  · exact Or.inl hw

theorem tier1Pass_writes_sub (es : List Entry) (st : ScanState) :
    ∀ w ∈ (tier1Pass es st).writes, w ∈ st.writes ∨ ∃ e ∈ es, w.content = e.data := by
  induction es generalizing st with
  | nil => exact fun w hw => Or.inl hw
  | cons e es ih =>
    intro w hw
    rw [tier1Pass_cons] at hw
    rcases ih _ w hw with h | ⟨e', he', hc⟩
    · by_cases hq : tier1Qual e.path
      · rw [if_pos hq] at h
        rcases saveEntry_writes_sub st e w h with h' | h'
        · exact Or.inl h'
        · exact Or.inr ⟨e, List.mem_cons_self e es, h'⟩
      · rw [if_neg hq] at h
        exact Or.inl h
    · exact Or.inr ⟨e', List.mem_cons_of_mem e he', hc⟩

theorem tier2Pass_writes_sub (es : List Entry) (st : ScanState) :
    ∀ w ∈ (tier2Pass es st).writes, w ∈ st.writes ∨ ∃ e ∈ es, w.content = e.data := by
  induction es generalizing st with
  | nil => exact fun w hw => Or.inl hw
  | cons e es ih =>
    intro w hw
    rw [tier2Pass_cons] at hw
    rcases ih _ w hw with h | ⟨e', he', hc⟩
    · by_cases hq : tier2Qual e.path
      · rw [if_pos hq] at h
        rcases saveEntry_writes_sub st e w h with h' | h'
        · exact Or.inl h'
        · exact Or.inr ⟨e, List.mem_cons_self e es, h'⟩
      · rw [if_neg hq] at h
        exact Or.inl h
    · exact Or.inr ⟨e', List.mem_cons_of_mem e he', hc⟩

theorem tier3Pass_writes_sub (es : List Entry) (st : ScanState) :
    ∀ w ∈ (tier3Pass es st).writes, w ∈ st.writes ∨ ∃ e ∈ es, w.content = e.data := by
  induction es generalizing st with
  | nil => exact fun w hw => Or.inl hw
  | cons e es ih =>
    intro w hw
    rw [tier3Pass_cons] at hw
    rcases ih _ w hw with h | ⟨e', he', hc⟩
    · by_cases hq : tier3Scan e.path
      · rw [if_pos hq] at h
        rcases saveDetected_writes_sub st e w h with h' | h'
        · exact Or.inl h'
        · exact Or.inr ⟨e, List.mem_cons_self e es, h'⟩
      · rw [if_neg hq] at h
        exact Or.inl h
    · exact Or.inr ⟨e', List.mem_cons_of_mem e he', hc⟩

/-- Claim C6 (amended): every file written by any tier has its bytes
copied verbatim from a single archive entry (no transcoding); the bytes
may however be empty, since no tier checks the entry's length
(`c6_counterexample`). -/
theorem c6_verbatim (es : List Entry) (hasPIL : Bool) (dir0 : List (String × Bytes)) :
    ∀ w ∈ (extract_images_using_zipfile (.archive es) hasPIL dir0).writes,
      ∃ e ∈ es, w.content = e.data := by
  intro w hw
  have hnil : ∀ h : w ∈ (⟨0, dir0, []⟩ : ScanState).writes, False := by
    intro h
    simp [ScanState.writes] at h
  simp only [extract_images_using_zipfile] at hw
  split at hw
  · split at hw
    · rcases tier3Pass_writes_sub _ _ w hw with h | h
      · rcases tier2Pass_writes_sub _ _ w h with h' | h'
        · rcases tier1Pass_writes_sub _ _ w h' with h'' | h''
          · exact absurd h'' (hnil ·)
          · exact h''
        · exact h'
      · exact h
    · rcases tier2Pass_writes_sub _ _ w hw with h | h
      · rcases tier1Pass_writes_sub _ _ w h with h' | h'
        · exact absurd h' (hnil ·)
        · exact h'
      · exact h
  · rcases tier1Pass_writes_sub _ _ w hw with h | h
    · exact absurd h (hnil ·)
    · exact h

/-- Witness for `c6_verbatim`: in a run over a one-entry archive, the
single written file's content equals that entry's bytes. -/
theorem c6_witness :
    (⟨1, "1_a.png", [7]⟩ : Output) ∈
        (extract_images_using_zipfile
          (.archive [⟨"xl/media/a.png", [7], true, true, none⟩]) false []).writes ∧
      ∃ e ∈ [(⟨"xl/media/a.png", [7], true, true, none⟩ : Entry)],
        (⟨1, "1_a.png", [7]⟩ : Output).content = e.data :=
  ⟨by decide, c6_verbatim [⟨"xl/media/a.png", [7], true, true, none⟩] false [] _ (by decide)⟩

theorem saveEntry_proj (st st' : ScanState) (e : Entry) (hc : st.count = st'.count)
    (hw : st.writes = st'.writes) :
    (saveEntry st e).count = (saveEntry st' e).count ∧
      (saveEntry st e).writes = (saveEntry st' e).writes := by
  cases hr : e.readOk <;> cases hb : e.writeOk <;> simp [saveEntry, hr, hb, hc, hw]

theorem saveDetected_proj (st st' : ScanState) (e : Entry) (hc : st.count = st'.count)
    (hw : st.writes = st'.writes) :
    (saveDetected st e).count = (saveDetected st' e).count ∧
      (saveDetected st e).writes = (saveDetected st' e).writes := by
  cases hd : e.decodesTo <;> cases hr : e.readOk <;> cases hb : e.writeOk <;>
    simp [saveDetected, hd, hr, hb, hc, hw]

theorem tier1Pass_proj (es : List Entry) (st st' : ScanState) (hc : st.count = st'.count)
    (hw : st.writes = st'.writes) :
    (tier1Pass es st).count = (tier1Pass es st').count ∧
      (tier1Pass es st).writes = (tier1Pass es st').writes := by
  induction es generalizing st st' with
  | nil => exact ⟨hc, hw⟩
  | cons e es ih =>
    rw [tier1Pass_cons, tier1Pass_cons]
    by_cases hq : tier1Qual e.path
    · rw [if_pos hq, if_pos hq]
      obtain ⟨h1, h2⟩ := saveEntry_proj st st' e hc hw
      exact ih _ _ h1 h2
    · rw [if_neg hq, if_neg hq]
      exact ih _ _ hc hw

theorem tier2Pass_proj (es : List Entry) (st st' : ScanState) (hc : st.count = st'.count)
    (hw : st.writes = st'.writes) :
    (tier2Pass es st).count = (tier2Pass es st').count ∧
      (tier2Pass es st).writes = (tier2Pass es st').writes := by
  induction es generalizing st st' with
  | nil => exact ⟨hc, hw⟩
  | cons e es ih =>
    rw [tier2Pass_cons, tier2Pass_cons]
    by_cases hq : tier2Qual e.path
    · rw [if_pos hq, if_pos hq]
      obtain ⟨h1, h2⟩ := saveEntry_proj st st' e hc hw
      exact ih _ _ h1 h2
    · rw [if_neg hq, if_neg hq]
      exact ih _ _ hc hw

theorem tier3Pass_proj (es : List Entry) (st st' : ScanState) (hc : st.count = st'.count)
    (hw : st.writes = st'.writes) :
    (tier3Pass es st).count = (tier3Pass es st').count ∧
      (tier3Pass es st).writes = (tier3Pass es st').writes := by
  induction es generalizing st st' with
  | nil => exact ⟨hc, hw⟩
  | cons e es ih =>
    rw [tier3Pass_cons, tier3Pass_cons]
    by_cases hq : tier3Scan e.path
    · rw [if_pos hq, if_pos hq]
      obtain ⟨h1, h2⟩ := saveDetected_proj st st' e hc hw
      exact ih _ _ h1 h2
    · rw [if_neg hq, if_neg hq]
      exact ih _ _ hc hw

/-- Claim C9: the extraction is deterministic in content — for a fixed
source and fixed decoding capability, the sequence of successful writes
(names and byte contents) and the returned count do not depend on the
initial contents of the output directory; in particular two runs into two
different (e.g. both empty) directories write byte-identical contents. -/
theorem c9_deterministic (src : Source) (hasPIL : Bool) (d0 d1 : List (String × Bytes)) :
    (extract_images_using_zipfile src hasPIL d0).writes =
        (extract_images_using_zipfile src hasPIL d1).writes ∧
      (extract_images_using_zipfile src hasPIL d0).count =
        (extract_images_using_zipfile src hasPIL d1).count := by
  cases src with
  | missing => exact ⟨rfl, rfl⟩
  | notZip => exact ⟨rfl, rfl⟩
  | archive es =>
    obtain ⟨hc1, hw1⟩ := tier1Pass_proj es ⟨0, d0, []⟩ ⟨0, d1, []⟩ rfl rfl
    obtain ⟨hc2, hw2⟩ := tier2Pass_proj es _ _ hc1 hw1
    obtain ⟨hc3, hw3⟩ := tier3Pass_proj es _ _ hc2 hw2
    simp only [extract_images_using_zipfile]
    by_cases h : (tier1Pass es ⟨0, d0, []⟩).count = 0
    · have h' : (tier1Pass es ⟨0, d1, []⟩).count = 0 := by rw [← hc1]; exact h
      rw [if_pos h, if_pos h']
      cases hasPIL
      · exact ⟨hw2, hc2⟩
      · exact ⟨hw3, hc3⟩
    · have h' : ¬(tier1Pass es ⟨0, d1, []⟩).count = 0 := by rw [← hc1]; exact h
      rw [if_neg h, if_neg h']
      exact ⟨hw1, hc1⟩

/-- Numeric value of an ASCII digit character. -/
def chVal (c : Char) : Nat := c.toNat - 48

/-- Value of a most-significant-first list of ASCII digit characters. -/
def charsVal (l : List Char) : Nat := l.foldl (fun a c => a * 10 + chVal c) 0

theorem chVal_digit : ∀ d, d < 10 → chVal (Char.ofNat (48 + d)) = d := by decide

theorem digit_ne_underscore : ∀ d, d < 10 → Char.ofNat (48 + d) ≠ '_' := by decide

theorem charsVal_append_digit (l : List Char) (c : Char) :
    charsVal (l ++ [c]) = charsVal l * 10 + chVal c := by
  unfold charsVal
  rw [List.foldl_append]
  rfl

theorem natToDecAux_val (fuel : Nat) : ∀ n ≤ fuel, charsVal (natToDecAux fuel n) = n := by
  induction fuel with
  | zero =>
    intro n hn
    have : n = 0 := Nat.le_zero.mp hn
    subst this
    rfl
  | succ fuel ih =>
    intro n hn
    by_cases hz : n = 0
    · subst hz
      simp [natToDecAux, charsVal]
    · rw [natToDecAux, if_neg hz, charsVal_append_digit]
      have hdiv : n / 10 ≤ fuel := by
        have := Nat.div_lt_self (Nat.pos_of_ne_zero hz) (by norm_num : 1 < 10)
        omega
      rw [ih (n / 10) hdiv, chVal_digit (n % 10) (Nat.mod_lt n (by norm_num))]
      omega

theorem natToDec_val (n : Nat) : charsVal (natToDec n).data = n := by
  by_cases hz : n = 0
  · subst hz
    decide
  · unfold natToDec
    rw [if_neg hz]
    exact natToDecAux_val n n (Nat.le_refl n)

theorem natToDecAux_mem (fuel : Nat) :
    ∀ n, ∀ c ∈ natToDecAux fuel n, c ≠ '_' := by
  induction fuel with
  | zero =>
    intro n c hc
    simp [natToDecAux] at hc
  | succ fuel ih =>
    intro n c hc
    by_cases hz : n = 0
    · subst hz
      simp [natToDecAux] at hc
    · rw [natToDecAux, if_neg hz] at hc
      rcases List.mem_append.mp hc with h | h
      · exact ih _ c h
      · rw [List.mem_singleton] at h
        subst h
        exact digit_ne_underscore (n % 10) (Nat.mod_lt n (by norm_num))

theorem natToDec_mem (n : Nat) : ∀ c ∈ (natToDec n).data, c ≠ '_' := by
  intro c hc
  by_cases hz : n = 0
  · subst hz
    intro h
    subst h
    exact absurd hc (by decide)
  · unfold natToDec at hc
    rw [if_neg hz] at hc
    exact natToDecAux_mem n n c hc

theorem append_underscore_inj (l₁ : List Char) :
    ∀ (l₂ r₁ r₂ : List Char), (∀ c ∈ l₁, c ≠ '_') → (∀ c ∈ l₂, c ≠ '_') →
      l₁ ++ '_' :: r₁ = l₂ ++ '_' :: r₂ → l₁ = l₂ := by
  induction l₁ with
  | nil =>
    intro l₂ r₁ r₂ _ h2 heq
    cases l₂ with
    | nil => rfl
    | cons d ds =>
      rw [List.nil_append, List.cons_append] at heq
      injection heq with hh _
      exact absurd hh.symm (h2 d (List.mem_cons_self d ds))
  | cons c cs ih =>
    intro l₂ r₁ r₂ h1 h2 heq
    cases l₂ with
    | nil =>
      rw [List.nil_append, List.cons_append] at heq
      injection heq with hh _
      exact absurd hh (h1 c (List.mem_cons_self c cs))
    | cons d ds =>
      rw [List.cons_append, List.cons_append] at heq
      injection heq with hh ht
      rw [hh, ih ds r₁ r₂ (fun x hx => h1 x (List.mem_cons_of_mem c hx))
        (fun x hx => h2 x (List.mem_cons_of_mem d hx)) ht]

/-- The sequence number is recoverable from an output file name: the
digits before the first underscore determine it. -/
theorem name_seq_inj (m n : Nat) (a b : String)
    (h : natToDec m ++ "_" ++ a = natToDec n ++ "_" ++ b) : m = n := by
  have hd := congrArg String.data h
  simp only [String.data_append] at hd
  rw [List.append_assoc, List.append_assoc] at hd
  have hu : ("_" : String).data ++ a.data = '_' :: a.data := rfl
  have hv : ("_" : String).data ++ b.data = '_' :: b.data := rfl
  rw [hu, hv] at hd
  have heq := append_underscore_inj (natToDec m).data (natToDec n).data a.data b.data
    (natToDec_mem m) (natToDec_mem n) hd
  have := congrArg charsVal heq
  rwa [natToDec_val, natToDec_val] at this

/-- Run invariant behind filename uniqueness: every logged write carries a
sequence number bounded by the current counter and a name of the shape
`<digits>_<rest>`, and sequence numbers strictly increase along the log. -/
def Inv (st : ScanState) : Prop :=
  (∀ w ∈ st.writes, w.seq ≤ st.count ∧ ∃ s, w.name = natToDec w.seq ++ "_" ++ s) ∧
    st.writes.Pairwise (fun a b => a.seq < b.seq)

theorem inv_with_count (st : ScanState) (k : Nat) (hk : st.count ≤ k) (h : Inv st) :
    Inv { st with count := k } := by
  obtain ⟨hb, hp⟩ := h
  refine ⟨fun w hw => ?_, hp⟩
  obtain ⟨h1, h2⟩ := hb w hw
  exact ⟨Nat.le_trans h1 hk, h2⟩

theorem inv_push (st : ScanState) (name s : String) (d : List (String × Bytes))
    (data : Bytes) (hname : name = natToDec (st.count + 1) ++ "_" ++ s) (h : Inv st) :
    Inv { count := st.count + 1, dir := d,
          writes := st.writes ++ [⟨st.count + 1, name, data⟩] } := by
  obtain ⟨hb, hp⟩ := h
  constructor
  · intro w hw
    rcases List.mem_append.mp hw with h' | h'
    · obtain ⟨h1, h2⟩ := hb w h'
      exact ⟨Nat.le_succ_of_le h1, h2⟩
    · rw [List.mem_singleton] at h'
      subst h'
      exact ⟨Nat.le_refl _, ⟨s, hname⟩⟩
  · rw [List.pairwise_append]
    refine ⟨hp, by simp, ?_⟩
    intro a ha b hb'
    rw [List.mem_singleton] at hb'
    subst hb'
    have := (hb a ha).1
    show a.seq < st.count + 1
    omega

theorem saveEntry_inv (st : ScanState) (e : Entry) (h : Inv st) : Inv (saveEntry st e) := by
  unfold saveEntry
  split
  · split
    · exact inv_push st _ (basename e.path) _ e.data rfl h
    · exact inv_with_count st _ (Nat.le_succ _) h
  · exact inv_with_count st _ (Nat.le_succ _) h

theorem saveDetected_inv (st : ScanState) (e : Entry) (h : Inv st) :
    Inv (saveDetected st e) := by
  unfold saveDetected
  split
  · split
    · rename_i fmt hfmt
      split
      · refine inv_push st _ ("detected_image." ++ fmtExt fmt) _ e.data ?_ h
        apply String.ext
        simp only [String.data_append, List.append_assoc]
        rfl
      · exact inv_with_count st _ (Nat.le_succ _) h
    · exact h
  · exact h

theorem tier1Pass_inv (es : List Entry) (st : ScanState) (h : Inv st) :
    Inv (tier1Pass es st) := by
  induction es generalizing st with
  | nil => exact h
  | cons e es ih =>
    rw [tier1Pass_cons]
    by_cases hq : tier1Qual e.path
    · rw [if_pos hq]
      exact ih _ (saveEntry_inv st e h)
    · rw [if_neg hq]
      exact ih _ h

theorem tier2Pass_inv (es : List Entry) (st : ScanState) (h : Inv st) :
    Inv (tier2Pass es st) := by
  induction es generalizing st with
  | nil => exact h
  | cons e es ih =>
    rw [tier2Pass_cons]
    by_cases hq : tier2Qual e.path
    · rw [if_pos hq]
      exact ih _ (saveEntry_inv st e h)
    · rw [if_neg hq]
      exact ih _ h

theorem tier3Pass_inv (es : List Entry) (st : ScanState) (h : Inv st) :
    Inv (tier3Pass es st) := by
  induction es generalizing st with
  | nil => exact h
  | cons e es ih =>
    rw [tier3Pass_cons]
    by_cases hq : tier3Scan e.path
    · rw [if_pos hq]
      exact ih _ (saveDetected_inv st e h)
    · rw [if_neg hq]
      exact ih _ h

theorem inv_pairwise_names (st : ScanState) (h : Inv st) :
    st.writes.Pairwise (fun a b => a.seq < b.seq ∧ a.name ≠ b.name) := by
  obtain ⟨hb, hp⟩ := h
  refine List.Pairwise.imp_of_mem (fun {a b} ha hb' hlt => ?_) hp
  refine ⟨hlt, fun hname => ?_⟩
  obtain ⟨-, sa, hsa⟩ := hb a ha
  obtain ⟨-, sb, hsb⟩ := hb b hb'
  rw [hsa, hsb] at hname
  have := name_seq_inj a.seq b.seq sa sb hname
  omega

/-- Claim C7: output filenames are unique within a run — along the log of
successful writes, the 1-based sequence numbers strictly increase and the
file names are pairwise distinct (the digits before the first underscore
of a name determine its sequence number). -/
theorem c7_unique_names (src : Source) (hasPIL : Bool) (dir0 : List (String × Bytes)) :
    (extract_images_using_zipfile src hasPIL dir0).writes.Pairwise
      (fun a b => a.seq < b.seq ∧ a.name ≠ b.name) := by
  cases src with
  | missing => simp [extract_images_using_zipfile]
  | notZip => simp [extract_images_using_zipfile]
  | archive es =>
    have h0 : Inv ⟨0, dir0, []⟩ := ⟨by simp, by simp⟩
    simp only [extract_images_using_zipfile]
    split
    · split
      · exact inv_pairwise_names _
          (tier3Pass_inv es _ (tier2Pass_inv es _ (tier1Pass_inv es _ h0)))
      · exact inv_pairwise_names _ (tier2Pass_inv es _ (tier1Pass_inv es _ h0))
    · exact inv_pairwise_names _ (tier1Pass_inv es _ h0)

end ExtractImages
